import Mathlib

/-!
Verification of the fleet-manager client (Go package `server` plus its
`internal/config` types) against its natural-language specification.

The development shallowly embeds the code paths that carry control flow:

* the archive assembler (`splitArchive`, `recombineLayers`, `verifyIntegrity`,
  `initializeBedrockServer`, the initialization prefix of `Start`);
* the reconciler (`pollConfiguration`, `updateServers`, `serverConfigChanged`);
* the process supervisor (`startServer`, `stopServer`, `monitorServer`,
  `GetStatus`);
* the port reclaimer (`killProcessesOnPort`, restricted to its per-process
  signal-escalation body).

Bytes are natural numbers, the Go `map[string]*MinecraftServer` is an
association list, process handles are pids, and fetches from the remote
configuration source are passed in as `Except` values.  Fields that only feed
logging or file formatting (timestamps, log buffers, property maps) are
omitted; every field a branch condition reads is kept.
-/

namespace Archive

/-- One byte of the archive payload.  Go reads the file as a raw byte stream;
the claims never depend on the 0..255 bound, so a byte is a natural number. -/
abbrev Byte := Nat

/-- Loop body of `splitArchive` (part_002 lines 220-244), fuel counting down
from 10: iteration with fuel `n + 1` corresponds to Go loop index
`i = 9 - n`, so `n = 0` is the last layer, which receives
`layerSize + remainder` bytes.  `io.CopyN` reads the next
`actualLayerSize` bytes from the advancing file offset, i.e. a take
followed by a drop. -/
def splitChunks (bytes : List Byte) (layerSize remainder : Nat) : Nat → List (List Byte)
  | 0 => []
  | n + 1 =>
    let actualLayerSize := if n = 0 then layerSize + remainder else layerSize
    bytes.take actualLayerSize :: splitChunks (bytes.drop actualLayerSize) layerSize remainder n

/-- `splitArchive` (part_002 lines 193-247): `layerSize = fileSize / 10`,
`remainder = fileSize % 10`, ten sequential layers, the last one padded with
the remainder. -/
def splitArchive (payload : List Byte) : List (List Byte) :=
  let fileSize := payload.length
  let layerSize := fileSize / 10
  let remainder := fileSize % 10
  splitChunks payload layerSize remainder 10

/-- Concatenation step of `recombineLayers` (part_002 lines 261-284): the ten
layer files are appended to the recombined file in index order. -/
def recombineData (chunks : List (List Byte)) : List Byte := chunks.flatten

/-- `verifyIntegrity` (part_002 lines 295-318): compare `calculateFileHash` of
the original archive with that of the recombined file and fail when they
differ.  The hash (SHA-256 hex in Go) is the parameter `h`; only equality of
hash values is ever consulted, so the hash codomain is an arbitrary type with
decidable equality. -/
def verifyIntegrity {H : Type} [DecidableEq H] (h : List Byte → H)
    (original recombined : List Byte) : Except String Unit :=
  if h original = h recombined then Except.ok ()
  else Except.error "integrity check failed: hashes do not match"

/-- `recombineLayers` (part_002 lines 249-293): concatenate the chunk files in
index order, then run `verifyIntegrity` against the original payload; an
integrity failure is propagated as an error.  `chunks` is the chunk set read
back from disk: equal to `splitArchive payload` when the files are intact,
anything else models on-disk corruption between split and recombine. -/
def recombineLayers {H : Type} [DecidableEq H] (h : List Byte → H)
    (original : List Byte) (chunks : List (List Byte)) : Except String (List Byte) :=
  let recombined := recombineData chunks
  match verifyIntegrity h original recombined with
  | Except.error e => Except.error e
  | Except.ok () => Except.ok recombined

end Archive

namespace Server

/-- Fields of `config.MinecraftServerConfig` that the manager branches on:
`Name` keys the fleet map and `Port`, `Version`, `WorldName` are the fields
`serverConfigChanged` compares.  The remaining fields (gamemode, whitelist,
property overrides, ...) only feed the generated per-instance files and carry
no control flow, so they are not modelled. -/
structure MinecraftServerConfig where
  name : String
  port : Int
  version : String
  worldName : String
  deriving Repr, DecidableEq

/-- `config.RepoConfig`: the desired-state document, an ordered list of server
specs. -/
structure RepoConfig where
  servers : List MinecraftServerConfig
  deriving Repr, DecidableEq

/-- One tracked instance (`MinecraftServer`, part_002 lines 34-42).  `Process`
is the `exec.Cmd` handle, modelled as the pid of the launched process;
`startServer` always stores a non-nil handle, hence the `Option` records
presence.  `Status` is the literal Go status string.  `StartTime`, `Logs` and
`MaxLogs` are not modelled: no branch reads them. -/
structure MinecraftServer where
  config : MinecraftServerConfig
  process : Option Nat
  status : String
  deriving Repr, DecidableEq

/-- The servers map (`map[string]*MinecraftServer`), modelled as an
association list keyed by name.  Go map iteration order is unspecified; the
list order stands in for one such order, and none of the verified properties
depends on it. -/
abbrev Fleet := List (String × MinecraftServer)

def fleetLookup (fl : Fleet) (name : String) : Option MinecraftServer :=
  match fl with
  | [] => none
  | (n, sv) :: rest => if n = name then some sv else fleetLookup rest name

def fleetErase (fl : Fleet) (name : String) : Fleet :=
  match fl with
  | [] => []
  | (n, sv) :: rest =>
    if n = name then fleetErase rest name else (n, sv) :: fleetErase rest name

def fleetSet (fl : Fleet) (name : String) (sv : MinecraftServer) : Fleet :=
  match fl with
  | [] => [(name, sv)]
  | (n, old) :: rest =>
    if n = name then (n, sv) :: rest else (n, old) :: fleetSet rest name sv

/-- Reconciliation actions observable from outside: launching a process for a
spec and killing the process tracked under a name. -/
inductive Action where
  | start (name : String) (pid : Nat)
  | stop (name : String)
  deriving Repr, DecidableEq

/-- The `Manager` fields the reconciliation logic reads and writes (part_002
lines 24-32), together with the pieces of `config.Config.Server` it consults
(`FirstRun`, `MaxInstances`).  `nextPid` is a model device supplying the pid
of each newly launched process (Go receives it from the OS). -/
structure Manager where
  servers : Fleet
  lastConfig : Option RepoConfig
  lastCommitSHA : String
  firstRun : Bool
  maxInstances : Nat
  nextPid : Nat
  deriving Repr, DecidableEq

/-- `stopServer` (part_002 lines 603-616): when the name is tracked, kill and
reap its process and delete the entry; stopping an untracked name is a no-op.
Returns the new fleet and the emitted actions. -/
def stopServer (fl : Fleet) (name : String) : Fleet × List Action :=
  match fleetLookup fl name with
  | none => (fl, [])
  | some _ => (fleetErase fl name, [Action.stop name])

/-- `startServer` (part_002 lines 505-601), success path: the process is
launched and tracked with status "starting" and the fresh handle.  The
preamble (directory creation, property files, port reclamation) and
`cmd.Start()` can fail, in which case the Go function returns early with the
fleet untouched — that failing branch is the identity on the fleet, so the
model takes the successful branch. -/
def startServer (fl : Fleet) (cfg : MinecraftServerConfig) (pid : Nat) :
    Fleet × List Action :=
  (fleetSet fl cfg.name { config := cfg, process := some pid, status := "starting" },
   [Action.start cfg.name pid])

/-- `serverConfigChanged` (part_002 lines 500-503). -/
def serverConfigChanged (old new : MinecraftServerConfig) : Bool :=
  old.port != new.port || old.version != new.version || old.worldName != new.worldName

/-- `monitorServer` (part_002 lines 627-642): runs once `cmd.Wait()` returns;
under the lock, if the name is still tracked, set that entry's status from the
exit outcome ("crashed" when Wait returned an error, "stopped" otherwise).
Only the status field is written — the handle stays in place — and the entry
is found by name alone: the `cmd` the waiter was attached to is used only for
`Wait` and never compared against the entry's process.  `exitErr` is whether
`Wait` returned an error. -/
def monitorServer (fl : Fleet) (name : String) (exitErr : Bool) : Fleet :=
  match fleetLookup fl name with
  | none => fl
  | some sv =>
    fleetSet fl name { sv with status := if exitErr then "crashed" else "stopped" }

def desiredHas (desired : List MinecraftServerConfig) (name : String) : Bool :=
  desired.any (fun c => c.name == name)

/-- Removal phase of `updateServers` (part_002 lines 463-475): every tracked
name absent from the desired list is stopped.  The Go loop ranges over the map
while `stopServer` deletes the current key, which visits each original entry
once; the model walks the list of tracked names. -/
def removeAbsentGo (fl : Fleet) (desired : List MinecraftServerConfig) :
    List String → Fleet × List Action
  | [] => (fl, [])
  | name :: rest =>
    if desiredHas desired name then removeAbsentGo fl desired rest
    else
      let stopped := stopServer fl name
      let remaining := removeAbsentGo stopped.1 desired rest
      (remaining.1, stopped.2 ++ remaining.2)

def removeAbsent (fl : Fleet) (desired : List MinecraftServerConfig) :
    Fleet × List Action :=
  removeAbsentGo fl desired (fl.map Prod.fst)

/-- Admission phase of `updateServers` (part_002 lines 478-497): iterate the
desired list in document order.  The cap guard `len(m.servers) >=
MaxInstances` (line 479) runs first on every iteration, before the existence
lookup, so it also skips specs whose name is already tracked; below the cap an
existing entry is compared with `serverConfigChanged` and, when changed,
stopped then started, while an absent name is started.  Returns the fleet,
the next fresh pid and the emitted actions. -/
def admitServers (maxInstances : Nat) :
    Fleet → Nat → List MinecraftServerConfig → Fleet × Nat × List Action
  | fl, nextPid, [] => (fl, nextPid, [])
  | fl, nextPid, cfg :: rest =>
    if maxInstances ≤ fl.length then
      admitServers maxInstances fl nextPid rest
    else
      match fleetLookup fl cfg.name with
      | some existing =>
        if serverConfigChanged existing.config cfg then
          let stopped := stopServer fl cfg.name
          let started := startServer stopped.1 cfg nextPid
          let rec1 := admitServers maxInstances started.1 (nextPid + 1) rest
          (rec1.1, rec1.2.1, stopped.2 ++ started.2 ++ rec1.2.2)
        else
          admitServers maxInstances fl nextPid rest
      | none =>
        let started := startServer fl cfg nextPid
        let rec1 := admitServers maxInstances started.1 (nextPid + 1) rest
        (rec1.1, rec1.2.1, started.2 ++ rec1.2.2)

/-- `updateServers` (part_002 lines 461-498): removals first, then admission
over the desired list in document order. -/
def updateServers (m : Manager) (repoConfig : RepoConfig) : Manager × List Action :=
  let removed := removeAbsent m.servers repoConfig.servers
  let admitted := admitServers m.maxInstances removed.1 m.nextPid repoConfig.servers
  ({ m with servers := admitted.1, nextPid := admitted.2.1 },
   removed.2 ++ admitted.2.2)

/-- `pollConfiguration` (part_002 lines 409-459), one tick.  `fetchSHA` and
`fetchConfig` are the results of `githubClient.GetLastCommitSHA()` and
`githubClient.GetConfig()`.  The result is `none` when the tick panics: line
443 logs `commitSHA[:8]`, and a Go string slice with an upper bound past the
length panics.  Note the first-run branch assigns `m.lastCommitSHA =
commitSHA` (line 420) before fetching the document, so a failed document fetch
in that branch keeps the new fingerprint. -/
def pollConfiguration (m : Manager) (fetchSHA : Except Unit String)
    (fetchConfig : Except Unit RepoConfig) : Option (Manager × List Action) :=
  match fetchSHA with
  | Except.error _ => some (m, [])
  | Except.ok commitSHA =>
    if m.firstRun ∧ m.lastCommitSHA = "" then
      let m1 := { m with lastCommitSHA := commitSHA }
      match fetchConfig with
      | Except.error _ => some (m1, [])
      | Except.ok repoConfig =>
        let updated := updateServers m1 repoConfig
        some ({ updated.1 with lastConfig := some repoConfig }, updated.2)
    else if commitSHA = m.lastCommitSHA then
      some (m, [])
    else if commitSHA.length < 8 then
      none
    else
      match fetchConfig with
      | Except.error _ => some (m, [])
      | Except.ok repoConfig =>
        let updated := updateServers m repoConfig
        some ({ updated.1 with
                  lastConfig := some repoConfig,
                  lastCommitSHA := commitSHA }, updated.2)

/-- Counts accumulated by the `GetStatus` loop (part_002 lines 757-774):
`Running` is incremented exactly when the status string equals "running";
every other status — "starting" included — increments `Stopped`. -/
def getStatusCounts (fl : Fleet) : Nat × Nat :=
  match fl with
  | [] => (0, 0)
  | (_, sv) :: rest =>
    let acc := getStatusCounts rest
    if sv.status = "running" then (acc.1 + 1, acc.2) else (acc.1, acc.2 + 1)

/-- The snapshot counts of `ManagerStatus` (part_002 lines 53-60); the
per-entry rows and timestamps carry no control flow and are omitted. -/
structure ManagerStatus where
  totalServers : Nat
  running : Nat
  stopped : Nat
  deriving Repr, DecidableEq

/-- `GetStatus` (part_002 lines 747-777), restricted to the counts. -/
def GetStatus (fl : Fleet) : ManagerStatus :=
  { totalServers := fl.length
    running := (getStatusCounts fl).1
    stopped := (getStatusCounts fl).2 }

/-- Fleet states reachable from the `NewManager` empty map by any
interleaving of the three transitions that touch the map: a successful
`startServer` (with an OS-chosen pid), a `stopServer`, and an exit-waiter
(`monitorServer`) firing.  A failed start leaves the map untouched, so
omitting it loses no reachable fleet. -/
inductive FleetReach : Fleet → Prop where
  | init : FleetReach []
  | start (fl : Fleet) (cfg : MinecraftServerConfig) (pid : Nat) :
      FleetReach fl → FleetReach (startServer fl cfg pid).1
  | stop (fl : Fleet) (name : String) :
      FleetReach fl → FleetReach (stopServer fl name).1
  | monitor (fl : Fleet) (name : String) (exitErr : Bool) :
      FleetReach fl → FleetReach (monitorServer fl name exitErr)

/-- Runs of the polling loop in `Start` (part_002 lines 100-112): each tick
folds its fetch results through `pollConfiguration`; a panicking tick kills
the program, emitting nothing further. -/
def runTicks (m : Manager) :
    List (Except Unit String × Except Unit RepoConfig) → List Action
  | [] => []
  | tick :: rest =>
    match pollConfiguration m tick.1 tick.2 with
    | none => []
    | some (m1, acts) => acts ++ runTicks m1 rest

end Server

namespace Archive

/-- `initializeBedrockServer` (part_002 lines 115-169) on the path where
`versions/bedrock-server.zip` is present: cleanup, split, recombine (which
runs `verifyIntegrity`), and on success extraction of the verified payload.
`chunks` is the chunk set read back from disk at recombine time.  Extraction
(bare file I/O) is abstracted to success; it is unreachable on the failing
path the claims examine and contributes no fleet action either way. -/
def initializeBedrockServer {H : Type} [DecidableEq H] (h : List Byte → H)
    (payload : List Byte) (chunks : List (List Byte)) : Except String (List Byte) :=
  recombineLayers h payload chunks

/-- `Manager.Start` (part_002 lines 81-113): `initializeBedrockServer` runs
before the polling loop, and when it fails the method returns at line 90 —
no `pollConfiguration` tick ever runs and no `startServer` call happens.  The
result is the list of fleet actions Start performs over the given ticks. -/
def managerStart {H : Type} [DecidableEq H] (h : List Byte → H)
    (payload : List Byte) (chunks : List (List Byte)) (m : Server.Manager)
    (ticks : List (Except Unit String × Except Unit Server.RepoConfig)) :
    List Server.Action :=
  match initializeBedrockServer h payload chunks with
  | Except.error _ => []
  | Except.ok _ => Server.runTicks m ticks

end Archive

namespace Ports

/-- State of an OS process found occupying a target port, as the reclamation
loop can observe it: `alive` says whether the process still exists after the
SIGTERM and the 2 second grace period. -/
structure ProcState where
  alive : Bool
  deriving Repr, DecidableEq

/-- Signals the reclamation loop can deliver: the graceful `os.Interrupt` and
the forceful `process.Kill()`. -/
inductive Sig where
  | interrupt
  | kill
  deriving Repr, DecidableEq

/-- Result of Go `process.Signal(os.Signal(nil))` as invoked at part_002 line
824: inside `os.(*Process).Signal` the runtime type assertion
`sig.(syscall.Signal)` fails on the nil interface before the pid is ever
consulted, so the call returns the "os: unsupported signal type" error for
alive and exited processes alike. -/
def signalNilResult (_p : ProcState) : Option String :=
  some "os: unsupported signal type"

/-- Per-process body of the `killProcessesOnPort` loop (part_002 lines
800-835): send SIGTERM via `process.Signal(os.Interrupt)`, sleep the grace
period, then re-check with `process.Signal(os.Signal(nil))`; only when that
re-check returns nil (line 824) is `process.Kill()` issued.  The result is
the list of signals actually delivered to the process. -/
def reclaimSignals (p : ProcState) : List Sig :=
  if (signalNilResult p).isNone then [Sig.interrupt, Sig.kill]
  else [Sig.interrupt]

end Ports

/-- Concrete spec used by witnesses and counterexamples. -/
def cfgAlpha : Server.MinecraftServerConfig :=
  { name := "alpha", port := 19132, version := "1.20", worldName := "world" }

/-- The same spec with the external port changed: `serverConfigChanged` holds
between the two. -/
def cfgAlphaMoved : Server.MinecraftServerConfig :=
  { cfgAlpha with port := 19133 }

/-- Concrete manager state with one tracked instance and a stored
fingerprint. -/
def mStored : Server.Manager :=
  { servers := [("alpha", { config := cfgAlpha, process := some 7, status := "starting" })]
    lastConfig := none
    lastCommitSHA := "deadbeef"
    firstRun := false
    maxInstances := 5
    nextPid := 8 }

/-- Fresh manager in first-run mode, as `NewManager` leaves it before the
very first tick. -/
def mFirstRun : Server.Manager :=
  { servers := []
    lastConfig := none
    lastCommitSHA := ""
    firstRun := true
    maxInstances := 5
    nextPid := 0 }

/-- Manager whose fleet is exactly at the configured maximum of one. -/
def mAtCap : Server.Manager :=
  { servers := [("alpha", { config := cfgAlpha, process := some 3, status := "starting" })]
    lastConfig := none
    lastCommitSHA := "deadbeef"
    firstRun := false
    maxInstances := 1
    nextPid := 4 }

/-- Fleet reached by starting alpha and letting its exit-waiter record an
abnormal exit. -/
def flCrashed : Server.Fleet :=
  Server.monitorServer (Server.startServer [] cfgAlpha 1).1 "alpha" true

/-- Chunk set of the same shape as `splitArchive [0]` (nine empty layers and
one byte in the last) with that byte flipped from 0 to 1. -/
def badChunks : List (List Archive.Byte) :=
  [[], [], [], [], [], [], [], [], [], [1]]

namespace Archive

theorem length_splitChunks (layerSize remainder : Nat) :
    ∀ (n : Nat) (bytes : List Byte),
      (splitChunks bytes layerSize remainder n).length = n := by
  intro n
  induction n with
  | zero => intro bytes; rfl
  | succ n ih =>
    intro bytes
    simp [splitChunks, ih]

theorem join_splitChunks (layerSize remainder : Nat) :
    ∀ (n : Nat) (bytes : List Byte),
      (splitChunks bytes layerSize remainder (n + 1)).flatten =
        bytes.take (n * layerSize + (layerSize + remainder)) := by
  intro n
  induction n with
  | zero =>
    intro bytes
    simp [splitChunks]
  | succ n ih =>
    intro bytes
    have hsucc : n + 1 ≠ 0 := Nat.succ_ne_zero n
    have hstep : splitChunks bytes layerSize remainder (n + 1 + 1) =
        bytes.take layerSize ::
          splitChunks (bytes.drop layerSize) layerSize remainder (n + 1) := by
      simp only [splitChunks, if_neg hsucc]
    rw [hstep, List.flatten_cons, ih, ← List.take_add]
    congr 1
    ring

theorem map_length_splitChunks (layerSize remainder : Nat) :
    ∀ (n : Nat) (bytes : List Byte),
      bytes.length = n * layerSize + (layerSize + remainder) →
      (splitChunks bytes layerSize remainder (n + 1)).map List.length =
        List.replicate n layerSize ++ [layerSize + remainder] := by
  intro n
  induction n with
  | zero =>
    intro bytes hlen
    simp [splitChunks, List.length_take, hlen]
  | succ n ih =>
    intro bytes hlen
    have hsucc : n + 1 ≠ 0 := Nat.succ_ne_zero n
    have hge : layerSize ≤ bytes.length := by
      rw [hlen, Nat.succ_mul]
      omega
    have hdrop : (bytes.drop layerSize).length = n * layerSize + (layerSize + remainder) := by
      rw [List.length_drop, hlen, Nat.succ_mul]
      omega
    have htake : (bytes.take layerSize).length = layerSize := by
      rw [List.length_take]
      omega
    calc (splitChunks bytes layerSize remainder (n + 1 + 1)).map List.length
        = (bytes.take layerSize).length ::
            (splitChunks (bytes.drop layerSize) layerSize remainder (n + 1)).map List.length := by
          simp [splitChunks, hsucc]
      _ = layerSize :: (List.replicate n layerSize ++ [layerSize + remainder]) := by
          rw [htake, ih (bytes.drop layerSize) hdrop]
      _ = List.replicate (n + 1) layerSize ++ [layerSize + remainder] := by
          simp [List.replicate_succ]

theorem splitArchive_length (payload : List Byte) :
    (splitArchive payload).length = 10 := by
  unfold splitArchive
  exact length_splitChunks _ _ 10 payload

theorem splitArchive_map_length (payload : List Byte) :
    (splitArchive payload).map List.length =
      List.replicate 9 (payload.length / 10) ++
        [payload.length / 10 + payload.length % 10] := by
  unfold splitArchive
  apply map_length_splitChunks
  have hmod := Nat.div_add_mod payload.length 10
  omega

theorem recombine_splitArchive (payload : List Byte) :
    recombineData (splitArchive payload) = payload := by
  unfold splitArchive recombineData
  rw [join_splitChunks (payload.length / 10) (payload.length % 10) 9 payload]
  have hmod := Nat.div_add_mod payload.length 10
  have hlen : 9 * (payload.length / 10) + (payload.length / 10 + payload.length % 10) =
      payload.length := by omega
  rw [hlen, List.take_length]

/-- Two chunk lists with the same componentwise lengths and the same
concatenation are equal. -/
theorem eq_of_join_eq : ∀ (xs ys : List (List Byte)),
    xs.map List.length = ys.map List.length → xs.flatten = ys.flatten → xs = ys := by
  intro xs
  induction xs with
  | nil =>
    intro ys hlen _
    cases ys with
    | nil => rfl
    | cons y ys => simp at hlen
  | cons x xs ih =>
    intro ys hlen hjoin
    cases ys with
    | nil => simp at hlen
    | cons y ys =>
      simp only [List.map_cons, List.cons.injEq] at hlen
      simp only [List.flatten_cons] at hjoin
      have hxy := List.append_inj hjoin hlen.1
      have := ih ys hlen.2 hxy.2
      rw [hxy.1, this]
end Archive

namespace Server

theorem fleetLookup_mem : ∀ {fl : Fleet} {name : String} {sv : MinecraftServer},
    fleetLookup fl name = some sv → (name, sv) ∈ fl := by
  intro fl
  induction fl with
  | nil => intro name sv h; simp [fleetLookup] at h
  | cons hd rest ih =>
    intro name sv h
    obtain ⟨n, sv2⟩ := hd
    by_cases hn : n = name
    · subst hn
      rw [fleetLookup, if_pos rfl] at h
      exact Option.some.inj h ▸ List.mem_cons_self _ _
    · rw [fleetLookup, if_neg hn] at h
      exact List.mem_cons_of_mem _ (ih h)

theorem mem_fleetErase : ∀ {fl : Fleet} {name : String} {e : String × MinecraftServer},
    e ∈ fleetErase fl name → e ∈ fl := by
  intro fl
  induction fl with
  | nil => intro name e h; simp [fleetErase] at h
  | cons hd rest ih =>
    intro name e h
    obtain ⟨n, sv⟩ := hd
    by_cases hn : n = name
    · rw [fleetErase, if_pos hn] at h
      exact List.mem_cons_of_mem _ (ih h)
    · rw [fleetErase, if_neg hn] at h
      rcases List.mem_cons.mp h with h1 | h1
      · exact h1 ▸ List.mem_cons_self _ _
      · exact List.mem_cons_of_mem _ (ih h1)

theorem mem_fleetSet : ∀ {fl : Fleet} {name : String} {sv : MinecraftServer}
    {e : String × MinecraftServer},
    e ∈ fleetSet fl name sv → e ∈ fl ∨ e.2 = sv := by
  intro fl
  induction fl with
  | nil =>
    intro name sv e h
    rw [fleetSet] at h
    rcases List.mem_cons.mp h with h1 | h1
    · exact Or.inr (by rw [h1])
    · simp at h1
  | cons hd rest ih =>
    intro name sv e h
    obtain ⟨n, old⟩ := hd
    by_cases hn : n = name
    · rw [fleetSet, if_pos hn] at h
      rcases List.mem_cons.mp h with h1 | h1
      · exact Or.inr (by rw [h1])
      · exact Or.inl (List.mem_cons_of_mem _ h1)
    · rw [fleetSet, if_neg hn] at h
      rcases List.mem_cons.mp h with h1 | h1
      · exact Or.inl (h1 ▸ List.mem_cons_self _ _)
      · rcases ih h1 with h2 | h2
        · exact Or.inl (List.mem_cons_of_mem _ h2)
        · exact Or.inr h2

end Server

/-- C1: idempotence of the reconciler tick — in every state whose stored
fingerprint is non-empty, a tick whose fetched fingerprint equals the stored
one returns with zero start or stop actions and the Manager (FleetState,
lastConfig and the stored fingerprint) unchanged. -/
theorem C1_tick_idempotent (m : Server.Manager)
    (fetchConfig : Except Unit Server.RepoConfig)
    (hstored : m.lastCommitSHA ≠ "") :
    Server.pollConfiguration m (Except.ok m.lastCommitSHA) fetchConfig =
      some (m, []) := by
  simp only [Server.pollConfiguration]
  rw [if_neg (fun hc => hstored hc.2)]
  simp

/-- C1 witness: the idempotence theorem applied to a concrete state with the
fingerprint "deadbeef" stored. -/
theorem C1_tick_idempotent_witness :
    mStored.lastCommitSHA ≠ "" ∧
      Server.pollConfiguration mStored (Except.ok mStored.lastCommitSHA)
        (Except.error ()) = some (mStored, []) :=
  ⟨by decide, C1_tick_idempotent mStored (Except.error ()) (by decide)⟩

/-- C2: split/recombine round trip — `splitArchive` yields exactly 10 chunks,
chunks 0..8 of `floor(S/10)` bytes each and chunk 9 of
`floor(S/10) + S mod 10` bytes, in original byte order, and `recombineLayers`
concatenates them in index order back into a payload byte-identical to the
source, passing the integrity check for every hash. -/
theorem C2_split_recombine_roundtrip (payload : List Archive.Byte) :
    (Archive.splitArchive payload).length = 10 ∧
    (Archive.splitArchive payload).map List.length =
      List.replicate 9 (payload.length / 10) ++
        [payload.length / 10 + payload.length % 10] ∧
    Archive.recombineData (Archive.splitArchive payload) = payload ∧
    ∀ {H : Type} [DecidableEq H] (h : List Archive.Byte → H),
      Archive.recombineLayers h payload (Archive.splitArchive payload) =
        Except.ok payload := by
  refine ⟨Archive.splitArchive_length payload, Archive.splitArchive_map_length payload,
    Archive.recombine_splitArchive payload, ?_⟩
  intro H _ h
  simp [Archive.recombineLayers, Archive.verifyIntegrity,
    Archive.recombine_splitArchive payload]

/-- C9: outside the first-run branch, a tick whose fetched fingerprint
differs from the stored one and is shorter than 8 bytes panics at the
`commitSHA[:8]` slice instead of applying the diff. -/
theorem C9_short_fingerprint_panics (m : Server.Manager) (sha : String)
    (fetchConfig : Except Unit Server.RepoConfig)
    (hfr : ¬ (m.firstRun ∧ m.lastCommitSHA = ""))
    (hne : sha ≠ m.lastCommitSHA)
    (hshort : sha.length < 8) :
    Server.pollConfiguration m (Except.ok sha) fetchConfig = none := by
  simp only [Server.pollConfiguration]
  rw [if_neg hfr, if_neg hne, if_pos hshort]

/-- C9 witness: the two-byte fingerprint "ab" against the stored "deadbeef",
outside first-run mode, panics. -/
theorem C9_short_fingerprint_panics_witness :
    (¬ (mStored.firstRun ∧ mStored.lastCommitSHA = "")) ∧ "ab" ≠ mStored.lastCommitSHA ∧
      "ab".length < 8 ∧
      Server.pollConfiguration mStored (Except.ok "ab") (Except.error ()) = none :=
  ⟨by decide, by decide, by decide,
   C9_short_fingerprint_panics mStored "ab" (Except.error ())
     (by decide) (by decide) (by decide)⟩

/-- C10: the exit-waiter transition is keyed by the instance name, not by
process identity — start a spec with pid1, stop it, start it again with pid2;
when the waiter that was attached to the first process fires with its exit
outcome, that outcome is recorded onto the entry that now tracks the second
process. -/
theorem C10_waiter_keyed_by_name (cfg : Server.MinecraftServerConfig)
    (pid1 pid2 : Nat) (exitErr : Bool) :
    Server.monitorServer
        (Server.startServer
          (Server.stopServer (Server.startServer [] cfg pid1).1 cfg.name).1
          cfg pid2).1
        cfg.name exitErr =
      [(cfg.name,
        { config := cfg, process := some pid2,
          status := if exitErr then "crashed" else "stopped" })] := by
  simp [Server.startServer, Server.stopServer, Server.monitorServer,
    Server.fleetLookup, Server.fleetSet, Server.fleetErase]

/-- C3: corruption is fatal at initialization — for every injective hash and
every chunk set of the same shape as the split that differs from it anywhere
(at least one corrupted byte), the recombined bytes differ from the original
payload, the hash comparison in `verifyIntegrity` fails, `recombineLayers`
and with it `initializeBedrockServer` return an error, and `Start` returns
before its polling loop: no tick runs and no server instance is ever
started. -/
theorem C3_corruption_fatal {H : Type} [DecidableEq H]
    (h : List Archive.Byte → H) (payload : List Archive.Byte)
    (chunks : List (List Archive.Byte))
    (hinj : Function.Injective h)
    (hshape : chunks.map List.length = (Archive.splitArchive payload).map List.length)
    (hcorrupt : chunks ≠ Archive.splitArchive payload) :
    Archive.initializeBedrockServer h payload chunks =
      Except.error "integrity check failed: hashes do not match" ∧
    ∀ (m : Server.Manager)
      (ticks : List (Except Unit String × Except Unit Server.RepoConfig)),
      Archive.managerStart h payload chunks m ticks = [] := by
  have hjoin : Archive.recombineData chunks ≠ payload := by
    intro heq
    apply hcorrupt
    apply Archive.eq_of_join_eq _ _ hshape
    rw [show (Archive.splitArchive payload).flatten =
        Archive.recombineData (Archive.splitArchive payload) from rfl,
      Archive.recombine_splitArchive payload]
    exact heq
  have hhash : ¬ h payload = h (Archive.recombineData chunks) :=
    fun hEq => hjoin (hinj hEq).symm
  have hinit : Archive.initializeBedrockServer h payload chunks =
      Except.error "integrity check failed: hashes do not match" := by
    simp [Archive.initializeBedrockServer, Archive.recombineLayers,
      Archive.verifyIntegrity, hhash]
  refine ⟨hinit, ?_⟩
  intro m ticks
  simp [Archive.managerStart, hinit]

/-- C3 witness: identity hash (injective), one-byte payload, the single byte
in the last chunk flipped from 0 to 1. -/
theorem C3_corruption_fatal_witness :
    Function.Injective (fun l : List Archive.Byte => l) ∧
    badChunks.map List.length = (Archive.splitArchive [0]).map List.length ∧
    badChunks ≠ Archive.splitArchive [0] ∧
    (Archive.initializeBedrockServer (fun l : List Archive.Byte => l) [0] badChunks =
        Except.error "integrity check failed: hashes do not match" ∧
      ∀ (m : Server.Manager)
        (ticks : List (Except Unit String × Except Unit Server.RepoConfig)),
        Archive.managerStart (fun l : List Archive.Byte => l) [0] badChunks m ticks = []) :=
  ⟨fun _ _ hx => hx, by decide, by decide,
   C3_corruption_fatal (fun l => l) [0] badChunks (fun _ _ hx => hx)
     (by decide) (by decide)⟩

/-- C4 (evaluation at the failing input): in first-run mode with no stored
fingerprint, a tick whose fingerprint fetch succeeds ("abcdef1234") and whose
document fetch fails returns with the stored fingerprint already overwritten
to "abcdef1234" — not unchanged as the claim requires — and the follow-up
tick, with the remote unchanged and the document fetch now succeeding, is
skipped as a no-change tick: the fetch is not retried and the configuration
is never applied. -/
theorem C4_first_run_fetch_failure_not_atomic :
    Server.pollConfiguration mFirstRun (Except.ok "abcdef1234") (Except.error ()) =
      some ({ mFirstRun with lastCommitSHA := "abcdef1234" }, []) ∧
    Server.pollConfiguration { mFirstRun with lastCommitSHA := "abcdef1234" }
        (Except.ok "abcdef1234") (Except.ok { servers := [cfgAlpha] }) =
      some ({ mFirstRun with lastCommitSHA := "abcdef1234" }, []) := by
  constructor <;> rfl

/-- C5 (counterexample): with the fleet exactly at the maximum (1 of 1) and a
desired document that changes the tracked spec's port, the claim requires the
changed-field comparison to run and the spec to be stopped then restarted;
`updateServers` instead emits no action at all and leaves the fleet
unchanged, because the cap guard runs before the existence lookup and skips
the already-tracked name. -/
theorem C5_counterexample :
    (Server.updateServers mAtCap { servers := [cfgAlphaMoved] }).2 = [] ∧
    (Server.updateServers mAtCap { servers := [cfgAlphaMoved] }).1.servers =
      mAtCap.servers ∧
    Server.serverConfigChanged cfgAlpha cfgAlphaMoved = true ∧
    Server.fleetLookup mAtCap.servers cfgAlphaMoved.name ≠ none ∧
    mAtCap.servers.length = mAtCap.maxInstances := by
  refine ⟨rfl, rfl, rfl, ?_, rfl⟩
  decide

/-- C5 (amended): during admission a spec is skipped whenever the tracked
count at its iteration already reaches the configured maximum, regardless of
whether its name exists in FleetState; once the fleet is at the cap the whole
remaining desired list — changed entries included — is skipped with no
comparison, stop or start. -/
theorem C5_amended_cap_skips_all (maxInstances nextPid : Nat)
    (fl : Server.Fleet) (cfgs : List Server.MinecraftServerConfig)
    (hcap : maxInstances ≤ fl.length) :
    Server.admitServers maxInstances fl nextPid cfgs = (fl, nextPid, []) := by
  induction cfgs with
  | nil => rfl
  | cons cfg rest ih => simp [Server.admitServers, hcap, ih]

/-- C5 amended witness: the amended cap behavior at the concrete at-cap fleet
and the changed spec. -/
theorem C5_amended_cap_skips_all_witness :
    1 ≤ mAtCap.servers.length ∧
    Server.admitServers 1 mAtCap.servers 4 [cfgAlphaMoved] =
      (mAtCap.servers, 4, []) :=
  ⟨by decide, C5_amended_cap_skips_all 1 4 mAtCap.servers [cfgAlphaMoved] (by decide)⟩

/-- C6 (counterexample): the handle-iff-status invariant fails on a reachable
state — after a start transition followed by the exit-waiter, the entry has
status "crashed" yet still holds its process handle, because `monitorServer`
writes only the status field. -/
theorem C6_counterexample :
    ¬ (∀ fl : Server.Fleet, Server.FleetReach fl →
        ∀ e ∈ fl, (e.2.process.isSome ↔
          (e.2.status = "starting" ∨ e.2.status = "running"))) := by
  intro hclaim
  have hreach : Server.FleetReach flCrashed := by
    unfold flCrashed
    exact Server.FleetReach.monitor _ _ _
      (Server.FleetReach.start _ _ _ Server.FleetReach.init)
  have hmem : ("alpha",
      ({ config := cfgAlpha, process := some 1, status := "crashed" } :
        Server.MinecraftServer)) ∈ flCrashed := by decide
  have hcontra := hclaim flCrashed hreach _ hmem
  revert hcontra
  decide

/-- C6 (amended): in every state reachable by start, stop and exit-waiter
transitions, every tracked entry holds a process handle — including entries
whose status is "stopped" or "crashed", since the exit-waiter records the
outcome without releasing the handle; an entry without a handle never
exists. -/
theorem C6_amended_handle_always_present (fl : Server.Fleet)
    (hreach : Server.FleetReach fl) :
    ∀ e ∈ fl, e.2.process.isSome := by
  induction hreach with
  | init => intro e he; cases he
  | start fl0 cfg pid _ ih =>
    intro e he
    rcases Server.mem_fleetSet he with h1 | h1
    · exact ih e h1
    · rw [h1]; rfl
  | stop fl0 name _ ih =>
    intro e he
    unfold Server.stopServer at he
    cases hlk : Server.fleetLookup fl0 name with
    | none => rw [hlk] at he; exact ih e he
    | some sv => rw [hlk] at he; exact ih e (Server.mem_fleetErase he)
  | monitor fl0 name exitErr _ ih =>
    intro e he
    unfold Server.monitorServer at he
    cases hlk : Server.fleetLookup fl0 name with
    | none => rw [hlk] at he; exact ih e he
    | some sv =>
      rw [hlk] at he
      rcases Server.mem_fleetSet he with h1 | h1
      · exact ih e h1
      · rw [h1]
        exact ih (name, sv) (Server.fleetLookup_mem hlk)

/-- C6 amended witness: the amended invariant evaluated on the concrete
reachable crashed fleet. -/
theorem C6_amended_handle_always_present_witness :
    Server.FleetReach flCrashed ∧ ∀ e ∈ flCrashed, e.2.process.isSome := by
  have hreach : Server.FleetReach flCrashed := by
    unfold flCrashed
    exact Server.FleetReach.monitor _ _ _
      (Server.FleetReach.start _ _ _ Server.FleetReach.init)
  exact ⟨hreach, C6_amended_handle_always_present flCrashed hreach⟩

/-- C7 (evaluation at the failing input): a fleet with one instance in status
"starting" — a started instance that has not exited.  The claim requires the
snapshot to count it in the running total; `GetStatus` counts it in the
stopped total (running = 0, stopped = 1), because only the literal status
string "running", which no transition in the package ever assigns, increments
the running counter. -/
theorem C7_starting_counted_as_stopped :
    Server.GetStatus
        [("alpha", { config := cfgAlpha, process := some 3, status := "starting" })] =
      { totalServers := 1, running := 0, stopped := 1 } := by
  decide

/-- C8: the escalation re-check of the port reclaimer is broken — for every
occupying process, alive or already exited, the re-check
`process.Signal(os.Signal(nil))` returns the unsupported-signal error, so
the force-kill branch is never taken: the only signal ever delivered is the
initial interrupt, a still-alive process is never killed, and the re-check
cannot distinguish a live process from an exited one. -/
theorem C8_force_kill_unreachable (p : Ports.ProcState) :
    Ports.reclaimSignals p = [Ports.Sig.interrupt] ∧
    Ports.Sig.kill ∉ Ports.reclaimSignals p ∧
    Ports.reclaimSignals { alive := true } = Ports.reclaimSignals { alive := false } := by
  refine ⟨rfl, ?_, rfl⟩
  rw [show Ports.reclaimSignals p = [Ports.Sig.interrupt] from rfl]
  decide
